import Mathlib

/-!
Veil policy engine: shallow embedding and verification

This file embeds the core policy-evaluation functions of the Veil
repository in Lean 4 and proves the specification's claims about them.

Embedded source:
* `matchesPattern`, `findMatchingRule`, `evaluateRules`, `getRuleTypeName`,
  `applyMask`, `generatePolicyRef` — the rule-matching utilities
  (`src/matching.ts`, shipped alongside `src/consumption.test.ts`);
* `parseJsonConfig` / its `convertMatch` helper — the JSON config loader
  (`src/cli/wrap-utils.ts`);
* `RULE_PACKS`, `fromPacks` — the pack resolver (`src/rules/categories.ts`);
* `mergeConfigs` — the config composer; its implementation file
  (`src/presets.ts`) is not among the sources, so it is modelled from
  the specification (see its doc comment).

Modelling conventions:
* JavaScript strings are modelled as Lean `String`s (sequences of
  characters); `String.prototype.includes` is modelled by an executable
  substring test `strIncludes` with a proven characterisation.
* A compiled JavaScript `RegExp` object is modelled by a `Regex`
  structure carrying its `source` string, its `flags` string and its
  `test` method as an opaque Boolean predicate on strings (the regex
  engine itself is a host-language builtin and is not re-implemented).
* Optional TypeScript fields are modelled by `Option`; a rule-list
  field that is absent is modelled by the empty list.
* A JavaScript `Record` (object used as a map) is modelled
  extensionally, as a function from keys to `Option` values;
  `console.warn` reports are modelled as an explicitly returned list.
-/

namespace Veil

/-- The rule actions: `"allow" | "deny" | "mask" | "rewrite"`. -/
inductive RuleAction where
  | allow
  | deny
  | mask
  | rewrite
deriving DecidableEq, Repr

/-- A compiled JavaScript `RegExp`: its `source` and `flags` properties and
its `test` method, the latter kept opaque (the regex engine is a builtin). -/
structure Regex where
  source : String
  flags : String
  test : String → Bool

/-- A rule pattern: `string | RegExp`. -/
inductive Pattern where
  | str (s : String)
  | regex (re : Regex)

/-- A rule: the `BaseRule` shape (`match`, `action`, optional `reason`)
together with the kind-specific optional fields (`safeAlternatives` of
`CliRule`, `replacement` of `EnvRule`). -/
structure Rule where
  «match» : Pattern
  action : RuleAction
  reason : Option String := none
  safeAlternatives : Option (List String) := none
  replacement : Option String := none

/-- Prefix test on character lists: does the character list `t` start with `p`? -/
def listStartsWith : List Char → List Char → Bool
  | [], _ => true
  | _ :: _, [] => false
  | p :: ps, t :: ts => p == t && listStartsWith ps ts

/-- Segment test on character lists: does `p` occur as a contiguous segment of `t`? -/
def listContainsSeg (p : List Char) : List Char → Bool
  | [] => listStartsWith p []
  | c :: rest => listStartsWith p (c :: rest) || listContainsSeg p rest

/-- JavaScript `target.includes(pattern)` : substring containment. -/
def strIncludes (target pattern : String) : Bool :=
  listContainsSeg pattern.data target.data

/-- JavaScript `s.startsWith(p)` : prefix test. -/
def strStartsWith (s p : String) : Bool :=
  listStartsWith p.data s.data

/-- The function `matchesPattern(target, pattern)` from `src/matching.ts`:
for a string pattern, exact match or substring containment
(`target === pattern || target.includes(pattern)`);
for a `RegExp` pattern, `pattern.test(target)`. -/
def matchesPattern (target : String) (pattern : Pattern) : Bool :=
  match pattern with
  | .str s => target == s || strIncludes target s
  | .regex re => re.test target

/-- The indexed loop body of `findMatchingRule`: scans `rules` carrying the
current zero-based index `i`. -/
def findMatchingRuleAux (target : String) : Nat → List Rule → Option (Rule × Nat)
  | _, [] => none
  | i, rule :: rest =>
    if matchesPattern target rule.«match» then some (rule, i)
    else findMatchingRuleAux target (i + 1) rest

/-- The function `findMatchingRule(target, rules)` from `src/matching.ts`: first matching
rule together with its zero-based index, or `null` when none matches. -/
def findMatchingRule (target : String) (rules : List Rule) : Option (Rule × Nat) :=
  findMatchingRuleAux target 0 rules

/-- The helper `getRuleTypeName(rule)` from `src/matching.ts`: the heuristic used for
policy references — `"cliRules"` when the rule has a `safeAlternatives`
property, otherwise the literal `"rules"`. -/
def getRuleTypeName (rule : Rule) : String :=
  if rule.safeAlternatives.isSome then "cliRules" else "rules"

/-- The helper `generatePolicyRef(ruleType, index)` from `src/matching.ts`. -/
def generatePolicyRef (ruleType : String) (index : Nat) : String :=
  ruleType ++ "[" ++ toString index ++ "]"

/-- The function `evaluateRules(target, rules)` from `src/matching.ts`: the first
matching rule's action, the rule itself, and the policy reference string
`` `${getRuleTypeName(rule)}[${index}]` ``; `null` when no rule matches. -/
def evaluateRules (target : String) (rules : List Rule) :
    Option (RuleAction × Rule × String) :=
  match findMatchingRule target rules with
  | none => none
  | some (rule, index) =>
    some (rule.action, rule, getRuleTypeName rule ++ "[" ++ toString index ++ "]")

/-- The function `applyMask(value, replacement?)` from `src/matching.ts`: a provided
replacement is returned unchanged; otherwise values of length ≤ 4 become
`"****"`, longer values keep their first and last character around
`min(length - 2, 8)` asterisks. -/
def applyMask (value : String) (replacement : Option String := none) : String :=
  match replacement with
  | some r => r
  | none =>
    if value.length ≤ 4 then "****"
    else
      String.mk (value.data.take 1)
        ++ String.mk (List.replicate (min (value.length - 2) 8) '*')
        ++ String.mk (value.data.drop (value.data.length - 1))

/-- The injector hooks of a configuration, each optional:
`files(path) -> string|null`, `env(key) -> string|null`,
`directories(path) -> string[]|null`. -/
structure Injectors where
  files : Option (String → Option String) := none
  env : Option (String → Option String) := none
  directories : Option (String → Option (List String)) := none

/-- A `VeilConfig`: the three ordered rule lists plus injector hooks.
An absent (`undefined`) rule list is modelled as the empty list. -/
structure VeilConfig where
  fileRules : List Rule := []
  envRules : List Rule := []
  cliRules : List Rule := []
  injectors : Injectors := {}

/-- The JavaScript `new RegExp(pattern, flags)` constructor: the produced
object carries the given pattern as `source`, the given `flags`, and a
`test` method given by the host regex `engine` at that source and flags. -/
def RegExpNew (engine : String → String → String → Bool)
    (pattern flags : String) : Regex :=
  ⟨pattern, flags, engine pattern flags⟩

/-- The `convertMatch` helper of `parseJsonConfig` (`src/cli/wrap-utils.ts`):
a string pattern that starts with `"^"` or contains `"|"` becomes
`new RegExp(match, "i")`; any other pattern is returned unchanged. -/
def convertMatch (engine : String → String → String → Bool) : Pattern → Pattern
  | .str s =>
    if strStartsWith s "^" || strIncludes s "|" then .regex (RegExpNew engine s "i")
    else .str s
  | p => p

/-- The function `parseJsonConfig` (`src/cli/wrap-utils.ts`), applied to the structure
produced by `JSON.parse` (JSON parsing itself is a host builtin and stays
outside the model): maps `convertMatch` over the `match` field of every
rule of each of the three lists, spreading the other fields unchanged. -/
def parseJsonConfig (engine : String → String → String → Bool)
    (parsed : VeilConfig) : VeilConfig :=
  { fileRules := parsed.fileRules.map
      (fun rule => { rule with «match» := convertMatch engine rule.«match» }),
    envRules := parsed.envRules.map
      (fun rule => { rule with «match» := convertMatch engine rule.«match» }),
    cliRules := parsed.cliRules.map
      (fun rule => { rule with «match» := convertMatch engine rule.«match» }),
    injectors := {} }

/-- Modelled from the spec: the Config Composer's `merge` (exported as
`mergeConfigs`). Its implementation file `src/presets.ts` is not among the
sources here — only its tests and callers are — so per the specification:
"concatenates each kind's rule arrays across all inputs in argument order;
merges injector hook maps shallowly (later configs' hooks for the same
resource kind override earlier ones)". -/
def mergeConfigs (configs : List VeilConfig) : VeilConfig :=
  configs.foldl
    (fun acc cfg =>
      { fileRules := acc.fileRules ++ cfg.fileRules,
        envRules := acc.envRules ++ cfg.envRules,
        cliRules := acc.cliRules ++ cfg.cliRules,
        injectors :=
          { files := (cfg.injectors.files).orElse (fun _ => acc.injectors.files),
            env := (cfg.injectors.env).orElse (fun _ => acc.injectors.env),
            directories :=
              (cfg.injectors.directories).orElse (fun _ => acc.injectors.directories) } })
    {}

/-- Rule severities: `"error" | "warn" | "off"`. -/
inductive RuleSeverity where
  | error
  | warn
  | off
deriving DecidableEq, Repr

/-- A rule pack (`src/rules/types.ts`): a named, curated list of
named-rule ids. -/
structure RulePack where
  name : String
  description : String
  rules : List String
deriving DecidableEq, Repr

/-- The `RULE_PACKS` record of `src/rules/categories.ts`, modelled
extensionally as a partial map from pack name to pack. -/
def RULE_PACKS : String → Option RulePack
  | "security:recommended" =>
    some ⟨"Security Recommended", "Essential security rules for any project",
      ["env/mask-aws", "env/mask-azure", "env/mask-gcp", "env/deny-passwords",
       "env/mask-tokens", "env/mask-secrets", "env/deny-database-urls",
       "fs/hide-env-files", "fs/hide-private-keys", "cli/no-curl-pipe-bash",
       "cli/no-credential-echo"]⟩
  | "security:strict" =>
    some ⟨"Security Strict", "Maximum security - blocks more aggressively",
      ["env/mask-aws", "env/mask-azure", "env/mask-gcp", "env/deny-passwords",
       "env/mask-tokens", "env/mask-secrets", "env/deny-database-urls",
       "fs/hide-env-files", "fs/hide-private-keys", "fs/hide-docker-config",
       "fs/hide-npm-config", "fs/hide-git-credentials", "cli/no-curl-pipe-bash",
       "cli/no-wget-pipe-bash", "cli/no-credential-echo",
       "cli/no-curl-with-password"]⟩
  | "platform:windows" =>
    some ⟨"Windows", "Windows-specific protections",
      ["win/no-delete-system32", "win/no-delete-windows",
       "win/no-delete-program-files", "win/no-format-drive",
       "win/no-delete-above-cwd", "win/no-modify-registry", "win/hide-ntuser",
       "win/hide-sam", "win/hide-credential-manager"]⟩
  | "platform:darwin" =>
    some ⟨"macOS", "macOS-specific protections",
      ["darwin/no-delete-system", "darwin/no-delete-library",
       "darwin/no-delete-applications", "darwin/no-delete-above-cwd",
       "darwin/hide-keychain", "darwin/no-security-dump", "darwin/hide-ssh",
       "darwin/no-disable-sip"]⟩
  | "platform:linux" =>
    some ⟨"Linux", "Linux-specific protections",
      ["linux/no-delete-root", "linux/no-delete-boot", "linux/no-delete-etc",
       "linux/no-delete-var", "linux/no-delete-above-cwd",
       "linux/no-delete-home-recursive", "linux/no-dd-to-disk", "linux/no-mkfs",
       "linux/hide-shadow", "linux/hide-ssh", "linux/hide-gnupg",
       "linux/no-fork-bomb", "linux/no-chmod-777-recursive"]⟩
  | "context:dev" =>
    some ⟨"Development", "Rules for local development",
      ["fs/hide-node-modules", "fs/hide-vcs", "fs/hide-build-output",
       "fs/hide-env-files", "fs/hide-private-keys", "env/mask-tokens",
       "env/mask-secrets"]⟩
  | "context:ci" =>
    some ⟨"CI/CD", "Rules for CI/CD pipelines",
      ["env/mask-aws", "env/mask-azure", "env/mask-gcp", "env/deny-passwords",
       "env/mask-tokens", "fs/hide-private-keys", "cli/no-curl-pipe-bash"]⟩
  | "context:production" =>
    some ⟨"Production", "Maximum protection for production environments",
      ["env/mask-aws", "env/mask-azure", "env/mask-gcp", "env/deny-passwords",
       "env/mask-tokens", "env/mask-secrets", "env/deny-database-urls",
       "fs/hide-env-files", "fs/hide-private-keys", "fs/hide-docker-config",
       "cli/no-curl-pipe-bash", "cli/no-credential-echo",
       "cli/no-curl-with-password"]⟩
  | "minimal" =>
    some ⟨"Minimal", "Just the essentials",
      ["fs/hide-env-files", "env/deny-passwords", "env/mask-tokens"]⟩
  | _ => none

/-- A `RulesConfig` (`Record<string, RuleConfig>`), modelled extensionally
as a map from rule id to severity. The optional per-rule options object of
`RuleConfig` is inert metadata and is not modelled. -/
def RulesConfig : Type := String → Option RuleSeverity

/-- The inner `for (const ruleId of pack.rules) config[ruleId] = "error"`
loop of `fromPacks`: assigns severity `"error"` to each id in order. -/
def assignError (config : RulesConfig) : List String → RulesConfig
  | [] => config
  | ruleId :: rest =>
    assignError (fun id => if id = ruleId then some .error else config id) rest

/-- The outer loop of `fromPacks` over the pack names, threading the
accumulated config and the list of `console.warn`-reported unknown names. -/
def fromPacksGo (config : RulesConfig) (warnings : List String) :
    List String → RulesConfig × List String
  | [] => (config, warnings)
  | packName :: rest =>
    match RULE_PACKS packName with
    | none => fromPacksGo config (warnings ++ [packName]) rest
    | some pack => fromPacksGo (assignError config pack.rules) warnings rest

/-- The function `fromPacks(...packNames)` from `src/rules/categories.ts`: for each named
pack, severity `"error"` for every contained rule id; an unknown pack name
is reported via `console.warn` (modelled as the second component) and
skipped. -/
def fromPacks (packNames : List String) : RulesConfig × List String :=
  fromPacksGo (fun _ => none) [] packNames

/-! ## Characterisation of the substring test -/

lemma listStartsWith_iff (p : List Char) : ∀ t : List Char,
    listStartsWith p t = true ↔ ∃ r, t = p ++ r := by
  induction p with
  | nil => intro t; simp [listStartsWith]
  | cons c cs ih =>
    intro t
    cases t with
    | nil =>
      simp only [listStartsWith, Bool.false_eq_true, false_iff]
      rintro ⟨r, hr⟩
      exact List.cons_ne_nil _ _ hr.symm
    | cons d ds =>
      simp only [listStartsWith, Bool.and_eq_true, beq_iff_eq, ih]
      constructor
      · rintro ⟨rfl, r, rfl⟩
        exact ⟨r, rfl⟩
      · rintro ⟨r, hr⟩
        injection hr with h1 h2
        exact ⟨h1.symm, r, h2⟩

lemma listContainsSeg_iff (p : List Char) : ∀ t : List Char,
    listContainsSeg p t = true ↔ ∃ l r, t = l ++ p ++ r := by
  intro t
  induction t with
  | nil =>
    simp only [listContainsSeg, listStartsWith_iff]
    constructor
    · rintro ⟨r, hr⟩
      exact ⟨[], r, by simpa using hr⟩
    · rintro ⟨l, r, hr⟩
      have h := hr.symm
      simp only [List.append_assoc, List.append_eq_nil] at h
      exact ⟨[], by simp [h.1, h.2.1, h.2.2]⟩
  | cons c rest ih =>
    simp only [listContainsSeg, Bool.or_eq_true, listStartsWith_iff, ih]
    constructor
    · rintro (⟨r, hr⟩ | ⟨l, r, hr⟩)
      · exact ⟨[], r, by simpa using hr⟩
      · exact ⟨c :: l, r, by simp [hr]⟩
    · rintro ⟨l, r, hr⟩
      cases l with
      | nil =>
        left
        exact ⟨r, by simpa using hr⟩
      | cons x xs =>
        right
        rw [List.cons_append, List.cons_append] at hr
        injection hr with h1 h2
        exact ⟨xs, r, by simp [h2]⟩

lemma strIncludes_iff (t p : String) :
    strIncludes t p = true ↔ ∃ l r, t.data = l ++ p.data ++ r :=
  listContainsSeg_iff p.data t.data

/-- Claim C2: `matchesPattern` on a literal string pattern is true iff the
target equals the pattern or contains it as a substring; on a regular
expression it is true iff the expression tests true against the target;
in particular `matchesPattern("node_modules/pkg", "node_modules")` is true
and `matchesPattern("src/index.ts", "node_modules")` is false. -/
theorem matchesPattern_spec :
    (∀ t s : String,
        matchesPattern t (.str s) = true ↔
          (t = s ∨ ∃ l r, t.data = l ++ s.data ++ r))
    ∧ (∀ (t : String) (re : Regex), matchesPattern t (.regex re) = re.test t)
    ∧ matchesPattern "node_modules/pkg" (.str "node_modules") = true
    ∧ matchesPattern "src/index.ts" (.str "node_modules") = false := by
  refine ⟨fun t s => ?_, fun t re => rfl, by decide, by decide⟩
  simp only [matchesPattern, Bool.or_eq_true, beq_iff_eq, strIncludes_iff]

/-- Witness for C2: the theorem applied at the concrete scenario input. -/
theorem matchesPattern_spec_witness :
    matchesPattern "node_modules/pkg" (.str "node_modules") = true :=
  matchesPattern_spec.2.2.1

/-! ## Characterisation of `findMatchingRule` -/

lemma findMatchingRuleAux_shift (t : String) (l : List Rule) : ∀ k : Nat,
    findMatchingRuleAux t k l =
      (findMatchingRuleAux t 0 l).map (fun p => (p.1, p.2 + k)) := by
  induction l with
  | nil => intro k; rfl
  | cons r rest ih =>
    intro k
    simp only [findMatchingRuleAux]
    by_cases h : matchesPattern t r.«match»
    · simp [h]
    · simp only [h, if_false, Bool.false_eq_true]
      rw [ih (k + 1), ih 1]
      cases findMatchingRuleAux t 0 rest with
      | none => rfl
      | some p => simp only [Option.map_some']; congr 2; omega

lemma findMatchingRule_cons (t : String) (r : Rule) (rest : List Rule) :
    findMatchingRule t (r :: rest) =
      if matchesPattern t r.«match» then some (r, 0)
      else (findMatchingRule t rest).map (fun p => (p.1, p.2 + 1)) := by
  unfold findMatchingRule
  simp only [findMatchingRuleAux]
  by_cases h : matchesPattern t r.«match»
  · simp [h]
  · simp only [h, if_false, Bool.false_eq_true]
    exact findMatchingRuleAux_shift t rest 1

lemma findMatchingRule_none_iff (t : String) (rules : List Rule) :
    findMatchingRule t rules = none ↔
      ∀ r ∈ rules, matchesPattern t r.«match» = false := by
  induction rules with
  | nil => simp [findMatchingRule, findMatchingRuleAux]
  | cons r rest ih =>
    rw [findMatchingRule_cons]
    by_cases h : matchesPattern t r.«match»
    · simp [h]
    · simp only [h, if_false, Bool.false_eq_true, Option.map_eq_none', ih]
      simp [List.forall_mem_cons, Bool.not_eq_true] at h ⊢
      exact fun _ => h

lemma findMatchingRule_some_iff (t : String) : ∀ (rules : List Rule) (rule : Rule) (i : Nat),
    findMatchingRule t rules = some (rule, i) ↔
      (rules[i]? = some rule ∧ matchesPattern t rule.«match» = true ∧
       ∀ j, j < i → ∀ r', rules[j]? = some r' →
         matchesPattern t r'.«match» = false) := by
  intro rules
  induction rules with
  | nil =>
    intro rule i
    simp [findMatchingRule, findMatchingRuleAux]
  | cons r rest ih =>
    intro rule i
    rw [findMatchingRule_cons]
    by_cases h : matchesPattern t r.«match»
    · simp only [h, if_true]
      constructor
      · rintro heq
        injection heq with heq
        injection heq with h1 h2
        subst h1; subst h2
        refine ⟨by simp, h, fun j hj => absurd hj (Nat.not_lt_zero j)⟩
      · rintro ⟨hget, hm, hlow⟩
        cases i with
        | zero =>
          simp only [List.getElem?_cons_zero, Option.some.injEq] at hget
          subst hget; rfl
        | succ j =>
          have := hlow 0 (Nat.succ_pos j) r (by simp)
          rw [h] at this
          cases this
    · simp only [h, if_false, Bool.false_eq_true]
      have hfalse : matchesPattern t r.«match» = false := by
        cases hb : matchesPattern t r.«match»
        · rfl
        · exact absurd hb h
      cases i with
      | zero =>
        simp only [Option.map_eq_some', List.getElem?_cons_zero, Option.some.injEq]
        constructor
        · rintro ⟨p, _, hp⟩
          injection hp with h1 h2
          exact absurd h2 (by omega)
        · rintro ⟨rfl, hm, _⟩
          rw [hfalse] at hm
          cases hm
      | succ j =>
        simp only [Option.map_eq_some', List.getElem?_cons_succ]
        constructor
        · rintro ⟨p, hp, heq⟩
          injection heq with h1 h2
          have h2' : p.2 = j := by omega
          have hp' : findMatchingRule t rest = some (rule, j) := by
            rw [← h1, ← h2']; exact hp
          obtain ⟨hget, hm, hlow⟩ := (ih rule j).mp hp'
          refine ⟨hget, hm, fun k hk r' hr' => ?_⟩
          cases k with
          | zero =>
            simp only [List.getElem?_cons_zero, Option.some.injEq] at hr'
            subst hr'; exact hfalse
          | succ k' =>
            simp only [List.getElem?_cons_succ] at hr'
            exact hlow k' (by omega) r' hr'
        · rintro ⟨hget, hm, hlow⟩
          refine ⟨(rule, j), (ih rule j).mpr ⟨hget, hm, fun k hk r' hr' => ?_⟩, rfl⟩
          exact hlow (k + 1) (by omega) r' (by simpa using hr')

/-- Claim C1: `findMatchingRule(t, R)` returns the rule at the lowest
zero-based index whose pattern matches `t`, paired with that index, and
returns `none` exactly when no rule of `R` matches `t`. -/
theorem findMatchingRule_first_match_spec (t : String) (rules : List Rule) :
    (∀ (rule : Rule) (i : Nat),
        findMatchingRule t rules = some (rule, i) ↔
          (rules[i]? = some rule ∧ matchesPattern t rule.«match» = true ∧
           ∀ j, j < i → ∀ r', rules[j]? = some r' →
             matchesPattern t r'.«match» = false))
    ∧ (findMatchingRule t rules = none ↔
        ∀ r ∈ rules, matchesPattern t r.«match» = false) :=
  ⟨fun rule i => findMatchingRule_some_iff t rules rule i,
   findMatchingRule_none_iff t rules⟩

/-- Witness for C1: on the consumption-test input, the returned pair is the
index-0 rule, and the characterisation's right-hand side follows by
applying the theorem. -/
theorem findMatchingRule_first_match_spec_witness :
    ([⟨.str "first", .deny, none, none, none⟩,
      ⟨.str "second", .allow, none, none, none⟩] : List Rule)[0]?
        = some ⟨.str "first", .deny, none, none, none⟩ ∧
      matchesPattern "first-file" (Pattern.str "first") = true :=
  have h := ((findMatchingRule_first_match_spec "first-file"
      [⟨.str "first", .deny, none, none, none⟩,
       ⟨.str "second", .allow, none, none, none⟩]).1
      ⟨.str "first", .deny, none, none, none⟩ 0).mp rfl
  ⟨h.1, h.2.1⟩

/-! ## The masking function -/

lemma drop_length_sub_one {α : Type} : ∀ l : List α, l ≠ [] →
    ∃ a, l.drop (l.length - 1) = [a] ∧ l.getLast? = some a := by
  intro l
  induction l with
  | nil => intro h; exact absurd rfl h
  | cons x xs ih =>
    intro _
    cases xs with
    | nil => exact ⟨x, rfl, rfl⟩
    | cons y ys =>
      obtain ⟨a, h1, h2⟩ := ih (List.cons_ne_nil y ys)
      have hlen : (x :: y :: ys).length - 1 = ((y :: ys).length - 1) + 1 := by
        simp only [List.length_cons]
        omega
      refine ⟨a, ?_, ?_⟩
      · rw [hlen, List.drop_succ_cons, h1]
      · rw [List.getLast?_cons_cons, h2]

/-- Claim C3: `applyMask` returns a provided replacement unchanged; with no
replacement it returns `"****"` for values of length ≤ 4, and otherwise the
first character of the value, then `min(length − 2, 8)` asterisks (between
1 and 8 of them), then the last character. -/
theorem applyMask_spec :
    (∀ v r : String, applyMask v (some r) = r)
    ∧ (∀ v : String, v.length ≤ 4 → applyMask v none = "****")
    ∧ (∀ v : String, 4 < v.length →
        (applyMask v none).data =
          v.data.take 1 ++ List.replicate (min (v.length - 2) 8) '*'
            ++ v.data.drop (v.data.length - 1)
        ∧ (applyMask v none).data.head? = v.data.head?
        ∧ (applyMask v none).data.getLast? = v.data.getLast?
        ∧ 1 ≤ min (v.length - 2) 8 ∧ min (v.length - 2) 8 ≤ 8) := by
  refine ⟨fun v r => rfl, fun v h => by simp [applyMask, h], fun v h => ?_⟩
  have h' : ¬ v.length ≤ 4 := by omega
  have hne : v.data ≠ [] := by
    intro hnil
    have : v.length = 0 := by
      show v.data.length = 0
      simp [hnil]
    omega
  have hdata : (applyMask v none).data =
      v.data.take 1 ++ List.replicate (min (v.length - 2) 8) '*'
        ++ v.data.drop (v.data.length - 1) := by
    simp only [applyMask, h', if_false]
    rfl
  obtain ⟨c, cs, hv⟩ := List.exists_cons_of_ne_nil hne
  obtain ⟨a, hdrop, hlast⟩ := drop_length_sub_one v.data hne
  refine ⟨hdata, ?_, ?_, ?_, Nat.min_le_right _ _⟩
  · rw [hdata, hv]
    simp
  · rw [hdata, hdrop, List.getLast?_concat, hlast]
  · have : 4 < v.data.length := h
    omega

/-- Witness for C3: the theorem applied at the test inputs `"short"`
(length 5) and `"key"` (length ≤ 4). -/
theorem applyMask_spec_witness :
    applyMask "key" none = "****" ∧
    (applyMask "short" none).data =
      ("short" : String).data.take 1 ++ List.replicate (min 3 8) '*'
        ++ ("short" : String).data.drop 4 :=
  ⟨applyMask_spec.2.1 "key" (by decide),
   by
    have h := (applyMask_spec.2.2 "short" (by decide)).1
    simpa using h⟩

/-- Claim C9: An explicitly supplied replacement is returned verbatim even
when it is the empty string: `applyMask(v, "")` is `""`. -/
theorem applyMask_empty_replacement (v : String) : applyMask v (some "") = "" :=
  rfl

/-- Witness for C9: the theorem applied at a concrete value. -/
theorem applyMask_empty_replacement_witness :
    applyMask "test-secret" (some "") = "" :=
  applyMask_empty_replacement "test-secret"

/-! ## The policy reference produced by `evaluateRules` -/

/-- Claim C4, failing-input evaluation: On the consumption-test file rules,
the policy reference built by `evaluateRules` for a match at index 0 is
`"rules[0]"`, not `"fileRules[0]"`: `getRuleTypeName` returns the literal
`"rules"` for a rule without `safeAlternatives`, although its own comment
says to default to `fileRules` and the specification shows `"fileRules[2]"`. -/
theorem evaluateRules_policyRef_not_fileRules :
    evaluateRules "first-file" [⟨.str "first", .deny, none, none, none⟩] =
      some (.deny, ⟨.str "first", .deny, none, none, none⟩, "rules[0]")
    ∧ ("rules[0]" : String) ≠ "fileRules[0]" :=
  ⟨rfl, by decide⟩

/-! ## Determinism of evaluation -/

/-- Claim C8: Evaluation is deterministic and mutates no state: two runs of
`evaluateRules` on equal inputs return equal outcomes (in this embedding
every evaluation function is pure, so equal inputs give equal results). -/
theorem evaluateRules_deterministic (t₁ t₂ : String) (rules₁ rules₂ : List Rule)
    (ht : t₁ = t₂) (hr : rules₁ = rules₂) :
    evaluateRules t₁ rules₁ = evaluateRules t₂ rules₂ ∧
    findMatchingRule t₁ rules₁ = findMatchingRule t₂ rules₂ := by
  rw [ht, hr]
  exact ⟨rfl, rfl⟩

/-- Witness for C8: two runs on the same concrete target and rule list. -/
theorem evaluateRules_deterministic_witness :
    evaluateRules ".env" [⟨.str ".env", .deny, none, none, none⟩] =
      evaluateRules ".env" [⟨.str ".env", .deny, none, none, none⟩] :=
  (evaluateRules_deterministic ".env" ".env"
    [⟨.str ".env", .deny, none, none, none⟩]
    [⟨.str ".env", .deny, none, none, none⟩] rfl rfl).1

/-! ## The config composer -/

/-- Claim C6: Merging two configurations yields, for each rule kind
independently, the first configuration's rules followed by the second's,
with length the sum of the inputs' lengths: merging never reorders, drops
or deduplicates rules. -/
theorem mergeConfigs_concat_spec (cfgA cfgB : VeilConfig) :
    (mergeConfigs [cfgA, cfgB]).fileRules = cfgA.fileRules ++ cfgB.fileRules
    ∧ (mergeConfigs [cfgA, cfgB]).envRules = cfgA.envRules ++ cfgB.envRules
    ∧ (mergeConfigs [cfgA, cfgB]).cliRules = cfgA.cliRules ++ cfgB.cliRules
    ∧ (mergeConfigs [cfgA, cfgB]).fileRules.length =
        cfgA.fileRules.length + cfgB.fileRules.length
    ∧ (mergeConfigs [cfgA, cfgB]).envRules.length =
        cfgA.envRules.length + cfgB.envRules.length
    ∧ (mergeConfigs [cfgA, cfgB]).cliRules.length =
        cfgA.cliRules.length + cfgB.cliRules.length := by
  refine ⟨?_, ?_, ?_, ?_, ?_, ?_⟩ <;> simp [mergeConfigs]

/-- Witness for C6: the theorem applied at two concrete one-rule configs. -/
theorem mergeConfigs_concat_spec_witness :
    (mergeConfigs
      [{ fileRules := [⟨.str "a", .deny, none, none, none⟩] },
       { fileRules := [⟨.str "b", .allow, none, none, none⟩] }]).fileRules =
      [⟨.str "a", .deny, none, none, none⟩] ++
        [⟨.str "b", .allow, none, none, none⟩] :=
  (mergeConfigs_concat_spec
    { fileRules := [⟨.str "a", .deny, none, none, none⟩] }
    { fileRules := [⟨.str "b", .allow, none, none, none⟩] }).1

/-! ## The JSON config loader -/

/-- Claim C5: `parseJsonConfig` converts each rule whose match is a string
beginning with `"^"` or containing `"|"` into a case-insensitive regular
expression (`new RegExp(s, "i")`) with that string as its source, leaves
every other string match literal, passes non-string matches through
unchanged, and preserves each list's order, length and remaining rule
fields. -/
theorem parseJsonConfig_spec (engine : String → String → String → Bool)
    (parsed : VeilConfig) :
    ((parseJsonConfig engine parsed).fileRules =
        parsed.fileRules.map
          (fun rule => { rule with «match» := convertMatch engine rule.«match» })
      ∧ (parseJsonConfig engine parsed).envRules =
          parsed.envRules.map
            (fun rule => { rule with «match» := convertMatch engine rule.«match» })
      ∧ (parseJsonConfig engine parsed).cliRules =
          parsed.cliRules.map
            (fun rule => { rule with «match» := convertMatch engine rule.«match» }))
    ∧ ((parseJsonConfig engine parsed).fileRules.length = parsed.fileRules.length
      ∧ (parseJsonConfig engine parsed).envRules.length = parsed.envRules.length
      ∧ (parseJsonConfig engine parsed).cliRules.length = parsed.cliRules.length)
    ∧ (∀ s : String, (strStartsWith s "^" || strIncludes s "|") = true →
        convertMatch engine (.str s) =
          .regex { source := s, flags := "i", test := engine s "i" })
    ∧ (∀ s : String, (strStartsWith s "^" || strIncludes s "|") = false →
        convertMatch engine (.str s) = .str s)
    ∧ (∀ re : Regex, convertMatch engine (.regex re) = .regex re) := by
  refine ⟨⟨rfl, rfl, rfl⟩, ⟨by simp [parseJsonConfig], by simp [parseJsonConfig],
    by simp [parseJsonConfig]⟩, fun s hs => ?_, fun s hs => ?_, fun re => rfl⟩
  · simp [convertMatch, hs, RegExpNew]
  · simp [convertMatch, hs]

/-- Witness for C5: the theorem applied to the wrap-utils test fixture —
`"^secrets/"` becomes a case-insensitive regex, `"rm -rf"` stays literal. -/
theorem parseJsonConfig_spec_witness :
    convertMatch (fun _ _ _ => false) (.str "^secrets/") =
      .regex { source := "^secrets/", flags := "i",
               test := (fun _ _ _ => false) "^secrets/" "i" }
    ∧ convertMatch (fun _ _ _ => false) (.str "rm -rf") = .str "rm -rf" :=
  ⟨(parseJsonConfig_spec (fun _ _ _ => false) {}).2.2.1 "^secrets/" (by decide),
   (parseJsonConfig_spec (fun _ _ _ => false) {}).2.2.2.1 "rm -rf" (by decide)⟩

/-! ## The pack resolver -/

lemma assignError_apply : ∀ (ruleIds : List String) (config : RulesConfig) (id : String),
    assignError config ruleIds id =
      if id ∈ ruleIds then some .error else config id := by
  intro ruleIds
  induction ruleIds with
  | nil => intro config id; simp [assignError]
  | cons rid rest ih =>
    intro config id
    simp only [assignError]
    rw [ih]
    by_cases hrest : id ∈ rest
    · simp [hrest, List.mem_cons]
    · by_cases hhead : id = rid <;> simp [hrest, hhead, List.mem_cons]

lemma fromPacksGo_fst : ∀ (packNames : List String) (config : RulesConfig)
    (warnings : List String) (id : String),
    ((∃ n ∈ packNames, ∃ p, RULE_PACKS n = some p ∧ id ∈ p.rules) →
        (fromPacksGo config warnings packNames).1 id = some .error)
    ∧ ((¬ ∃ n ∈ packNames, ∃ p, RULE_PACKS n = some p ∧ id ∈ p.rules) →
        (fromPacksGo config warnings packNames).1 id = config id) := by
  intro packNames
  induction packNames with
  | nil =>
    intro config warnings id
    exact ⟨fun h => by simp at h, fun _ => rfl⟩
  | cons packName rest ih =>
    intro config warnings id
    simp only [fromPacksGo]
    cases hp : RULE_PACKS packName with
    | none =>
      constructor
      · intro hex
        obtain ⟨n, hn, p, hps, hid⟩ := hex
        rcases List.mem_cons.mp hn with rfl | hn'
        · rw [hp] at hps; cases hps
        · exact (ih config (warnings ++ [packName]) id).1 ⟨n, hn', p, hps, hid⟩
      · intro hnex
        refine (ih config (warnings ++ [packName]) id).2 fun hex => hnex ?_
        obtain ⟨n, hn, p, hps, hid⟩ := hex
        exact ⟨n, List.mem_cons_of_mem _ hn, p, hps, hid⟩
    | some pack =>
      constructor
      · intro hex
        by_cases hrest : ∃ n ∈ rest, ∃ p, RULE_PACKS n = some p ∧ id ∈ p.rules
        · exact (ih (assignError config pack.rules) warnings id).1 hrest
        · have hhead : id ∈ pack.rules := by
            obtain ⟨n, hn, p, hps, hid⟩ := hex
            rcases List.mem_cons.mp hn with rfl | hn'
            · rw [hp] at hps
              injection hps with hps
              subst hps
              exact hid
            · exact absurd ⟨n, hn', p, hps, hid⟩ hrest
          rw [(ih (assignError config pack.rules) warnings id).2 hrest,
            assignError_apply]
          simp [hhead]
      · intro hnex
        have hrest : ¬ ∃ n ∈ rest, ∃ p, RULE_PACKS n = some p ∧ id ∈ p.rules :=
          fun ⟨n, hn, p, hps, hid⟩ =>
            hnex ⟨n, List.mem_cons_of_mem _ hn, p, hps, hid⟩
        have hhead : id ∉ pack.rules := fun hid =>
          hnex ⟨packName, List.mem_cons_self _ _, pack, hp, hid⟩
        rw [(ih (assignError config pack.rules) warnings id).2 hrest,
          assignError_apply]
        simp [hhead]

lemma fromPacksGo_snd : ∀ (packNames : List String) (config : RulesConfig)
    (warnings : List String),
    (fromPacksGo config warnings packNames).2 =
      warnings ++ packNames.filter (fun n => (RULE_PACKS n).isNone) := by
  intro packNames
  induction packNames with
  | nil => intro config warnings; simp [fromPacksGo]
  | cons packName rest ih =>
    intro config warnings
    simp only [fromPacksGo]
    cases hp : RULE_PACKS packName with
    | none => rw [ih]; simp [List.filter_cons, hp]
    | some pack => rw [ih]; simp [List.filter_cons, hp]

/-- Claim C7: `fromPacks` maps every rule id contained in a known named pack
of the argument list to severity `"error"` and nothing else; an unknown
pack name is reported (as a `console.warn`, modelled by the second
component) and contributes no entries, so `fromPacks` applied only to
unknown names returns an empty config — and, being a total function, it
never throws. -/
theorem fromPacks_spec (packNames : List String) :
    (∀ id : String,
        (fromPacks packNames).1 id = some .error ↔
          ∃ n ∈ packNames, ∃ p, RULE_PACKS n = some p ∧ id ∈ p.rules)
    ∧ (∀ (id : String) (v : RuleSeverity),
        (fromPacks packNames).1 id = some v → v = .error)
    ∧ (∀ n ∈ packNames, RULE_PACKS n = none → n ∈ (fromPacks packNames).2)
    ∧ ((∀ n ∈ packNames, RULE_PACKS n = none) →
        ∀ id, (fromPacks packNames).1 id = none) := by
  have hfst : ∀ id : String,
      ((∃ n ∈ packNames, ∃ p, RULE_PACKS n = some p ∧ id ∈ p.rules) →
          (fromPacks packNames).1 id = some .error)
      ∧ ((¬ ∃ n ∈ packNames, ∃ p, RULE_PACKS n = some p ∧ id ∈ p.rules) →
          (fromPacks packNames).1 id = none) :=
    fun id => fromPacksGo_fst packNames (fun _ => none) [] id
  refine ⟨fun id => ?_, fun id v hv => ?_, fun n hn hnone => ?_, fun hall id => ?_⟩
  · constructor
    · intro h
      by_cases hex : ∃ n ∈ packNames, ∃ p, RULE_PACKS n = some p ∧ id ∈ p.rules
      · exact hex
      · rw [(hfst id).2 hex] at h; cases h
    · exact (hfst id).1
  · by_cases hex : ∃ n ∈ packNames, ∃ p, RULE_PACKS n = some p ∧ id ∈ p.rules
    · rw [(hfst id).1 hex] at hv
      injection hv with hv
      exact hv.symm
    · rw [(hfst id).2 hex] at hv; cases hv
  · rw [show (fromPacks packNames).2 =
        [] ++ packNames.filter (fun n => (RULE_PACKS n).isNone) from
      fromPacksGo_snd packNames (fun _ => none) []]
    simp only [List.nil_append, List.mem_filter]
    exact ⟨hn, by simp [hnone]⟩
  · refine (hfst id).2 fun ⟨n, hn, p, hps, _⟩ => ?_
    rw [hall n hn] at hps
    cases hps

/-- Witness for C7: on `["minimal", "unknown-pack"]` the theorem yields
severity `"error"` for `"env/mask-tokens"` (contained in the `minimal`
pack), the reported unknown name, and no entry for an uncovered id. -/
theorem fromPacks_spec_witness :
    (fromPacks ["minimal", "unknown-pack"]).1 "env/mask-tokens" = some .error
    ∧ "unknown-pack" ∈ (fromPacks ["minimal", "unknown-pack"]).2
    ∧ (fromPacks ["unknown-pack"]).1 "env/mask-tokens" = none :=
  ⟨((fromPacks_spec ["minimal", "unknown-pack"]).1 "env/mask-tokens").mpr
      ⟨"minimal", by simp, ⟨"Minimal", "Just the essentials",
        ["fs/hide-env-files", "env/deny-passwords", "env/mask-tokens"]⟩,
        rfl, by simp⟩,
   (fromPacks_spec ["minimal", "unknown-pack"]).2.2.1 "unknown-pack"
      (by simp) rfl,
   (fromPacks_spec ["unknown-pack"]).2.2.2
      (by intro n hn; simp at hn; subst hn; rfl) "env/mask-tokens"⟩

/-- Claim C10: For collections of pack names with the same underlying set,
`fromPacks` produces the same id-to-severity mapping — it is commutative
and idempotent up to argument order and repetition — and every produced
entry has severity `"error"`. -/
theorem fromPacks_set_invariant (l1 l2 : List String)
    (h : ∀ n, n ∈ l1 ↔ n ∈ l2) :
    (∀ id, (fromPacks l1).1 id = (fromPacks l2).1 id)
    ∧ (∀ (id : String) (v : RuleSeverity),
        (fromPacks l1).1 id = some v → v = .error) := by
  have h1 : ∀ id : String,
      ((∃ n ∈ l1, ∃ p, RULE_PACKS n = some p ∧ id ∈ p.rules) →
          (fromPacks l1).1 id = some .error)
      ∧ ((¬ ∃ n ∈ l1, ∃ p, RULE_PACKS n = some p ∧ id ∈ p.rules) →
          (fromPacks l1).1 id = none) :=
    fun id => fromPacksGo_fst l1 (fun _ => none) [] id
  have h2 : ∀ id : String,
      ((∃ n ∈ l2, ∃ p, RULE_PACKS n = some p ∧ id ∈ p.rules) →
          (fromPacks l2).1 id = some .error)
      ∧ ((¬ ∃ n ∈ l2, ∃ p, RULE_PACKS n = some p ∧ id ∈ p.rules) →
          (fromPacks l2).1 id = none) :=
    fun id => fromPacksGo_fst l2 (fun _ => none) [] id
  constructor
  · intro id
    by_cases hex : ∃ n ∈ l1, ∃ p, RULE_PACKS n = some p ∧ id ∈ p.rules
    · obtain ⟨n, hn, p, hps, hid⟩ := hex
      rw [(h1 id).1 ⟨n, hn, p, hps, hid⟩,
        (h2 id).1 ⟨n, (h n).mp hn, p, hps, hid⟩]
    · have hex2 : ¬ ∃ n ∈ l2, ∃ p, RULE_PACKS n = some p ∧ id ∈ p.rules :=
        fun ⟨n, hn, p, hps, hid⟩ => hex ⟨n, (h n).mpr hn, p, hps, hid⟩
      rw [(h1 id).2 hex, (h2 id).2 hex2]
  · intro id v hv
    by_cases hex : ∃ n ∈ l1, ∃ p, RULE_PACKS n = some p ∧ id ∈ p.rules
    · rw [(h1 id).1 hex] at hv
      injection hv with hv
      exact hv.symm
    · rw [(h1 id).2 hex] at hv; cases hv

/-- Witness for C10: the theorem applied to `["minimal", "context:ci"]`
against the reordered, repetition-containing `["context:ci", "minimal",
"minimal"]`, evaluated at a concrete rule id. -/
theorem fromPacks_set_invariant_witness :
    (fromPacks ["minimal", "context:ci"]).1 "env/mask-aws" =
      (fromPacks ["context:ci", "minimal", "minimal"]).1 "env/mask-aws" :=
  (fromPacks_set_invariant ["minimal", "context:ci"]
    ["context:ci", "minimal", "minimal"]
    (by intro n; simp [List.mem_cons]; tauto)).1 "env/mask-aws"

end Veil
